import Mathlib

/-!
Verification of the OpenFHE tracing subsystem (SimpleTracer, MlirTracer,
HeraclesTracer, NullTracer) against its design specification.

The C++ headers are shallowly embedded: each std::unordered_map becomes an
association list, pointers become natural-number addresses, serialized byte
strings become Lean strings, and every stateful member function becomes an
explicit state-passing function.  Machine integers that matter here
(ID counters, nesting levels, vector lengths) never overflow in the traced
scenarios, so they are modelled as Nat; the nesting counter, whose guarded
decrement is the point of interest, is modelled as Int so that
non-negativity is a real statement rather than a typing artifact.
-/

namespace OpenFHE

/-! ## Association-list maps: the model of std::unordered_map -/

/-- Lookup in an association list, mirroring unordered_map::find. -/
def mapLookup {α β : Type} [DecidableEq α] : List (α × β) → α → Option β
  | [], _ => none
  | (k, v) :: rest, key => if k = key then some v else mapLookup rest key

/-- Insert-or-assign, mirroring unordered_map::operator[] assignment. -/
def mapInsert {α β : Type} [DecidableEq α] : List (α × β) → α → β → List (α × β)
  | [], key, v => [(key, v)]
  | (k, w) :: rest, key, v =>
    if k = key then (key, v) :: rest else (k, w) :: mapInsert rest key v


/-! ## Hashing and the content-addressed identity registry

SimpleTracer and HeraclesTracer key object identity on
HashUtil::HashString(serialized bytes).  The digest is modelled as an
injective (here: identity) function on the serialized byte string: all the
registry cares about is that byte-identical serializations hash identically
and distinct serializations hash distinctly. -/

namespace HashUtil

/-- Model of HashUtil::HashString: a collision-free digest of the serialized
bytes, represented by the byte string itself. -/
def HashString (bytes : String) : String := bytes

end HashUtil

/-- Registry state shared across scope tracers: m_uniqueID maps a content
hash to its assigned symbolic name, m_counters maps a type tag to the last
ordinal minted for that tag. -/
structure RegistryState where
  uniqueID : List (String × String)
  counters : List (String × Nat)
deriving DecidableEq

def RegistryState.empty : RegistryState := ⟨[], []⟩

namespace SimpleFunctionTracer

/-- SimpleFunctionTracer::generateObjectId: pre-increments the per-type
counter and renders type_ordinal. -/
def generateObjectId (st : RegistryState) (type : String) : String × RegistryState :=
  let c := (mapLookup st.counters type).getD 0 + 1
  (type ++ "_" ++ toString c, { st with counters := mapInsert st.counters type c })

/-- The getID helper (SimpleFunctionTracer in the earlier tracer iteration,
same logic as the ID portion of registerObjectHelper and of
HeraclesFunctionTracer::getObjectId): serialize, hash, reuse the mapped name
on a hit, otherwise mint type_ordinal and record it. -/
def getID (st : RegistryState) (bytes type : String) : String × RegistryState :=
  match mapLookup st.uniqueID (HashUtil.HashString bytes) with
  | some id => (id, st)
  | none =>
    ((generateObjectId st type).1,
     { (generateObjectId st type).2 with
         uniqueID := mapInsert (generateObjectId st type).2.uniqueID
           (HashUtil.HashString bytes) (generateObjectId st type).1 })

/-- SimpleFunctionTracer::registerObjectHelper: resolve the ID as getID does
and append the entry to the target list (m_inputs or m_outputs). -/
def registerObjectHelper (st : RegistryState) (bytes type name : String)
    (target : List String) : RegistryState × List String :=
  ((getID st bytes type).2, target ++ [name ++ " " ++ (getID st bytes type).1])

end SimpleFunctionTracer

/-- One registration call presented to the content-addressed registry: the
type tag passed at the call site and the canonical binary serialization of
the registered object. -/
structure RegEvent where
  type : String
  bytes : String
deriving DecidableEq

/-- State after a sequence of registrations through getID. -/
def runGetID : RegistryState → List RegEvent → RegistryState
  | st, [] => st
  | st, e :: es => runGetID (SimpleFunctionTracer.getID st e.bytes e.type).2 es

/-- Symbolic names returned by a sequence of registrations, in call order. -/
def getIDOutputs : RegistryState → List RegEvent → List String
  | _, [] => []
  | st, e :: es =>
    (SimpleFunctionTracer.getID st e.bytes e.type).1
      :: getIDOutputs (SimpleFunctionTracer.getID st e.bytes e.type).2 es

/-- Ordinals newly minted by a sequence of registrations, tagged by type:
an event mints exactly when its content hash misses in m_uniqueID, and the
minted ordinal is the pre-incremented per-type counter. -/
def mintsOf : RegistryState → List RegEvent → List (String × Nat)
  | _, [] => []
  | st, e :: es =>
    match mapLookup st.uniqueID (HashUtil.HashString e.bytes) with
    | some _ => mintsOf (SimpleFunctionTracer.getID st e.bytes e.type).2 es
    | none =>
      (e.type, (mapLookup st.counters e.type).getD 0 + 1)
        :: mintsOf (SimpleFunctionTracer.getID st e.bytes e.type).2 es

/-- The minted ordinals of a fixed type tag, in minting order. -/
def mintedOrdinals (st : RegistryState) (evs : List RegEvent) (t : String) : List Nat :=
  (mintsOf st evs).filterMap (fun p => if p.1 = t then some p.2 else none)

/-! ### Basic registry lemmas -/

namespace SimpleFunctionTracer


end SimpleFunctionTracer


/-! ## The MLIR backend resolves identity by pointer, not by content -/

namespace MlirTracer

/-- Character-list leading-match test used by strFind. -/
def leadsWith : List Char → List Char → Bool
  | [], _ => true
  | _ :: _, [] => false
  | p :: ps, c :: cs => p == c && leadsWith ps cs

/-- Model of type.find(pat) != std::string::npos: pat occurs inside t. -/
def strFind (t pat : String) : Bool :=
  t.data.tails.any (fun suf => leadsWith pat.data suf)

/-- MlirTracer state: m_idMap is keyed on the RAW POINTER of the host
object (const void*), m_counters on the derived register-name tag. -/
structure MlirState where
  idMap : List (Nat × String)
  counters : List (String × Nat)
deriving DecidableEq

def MlirState.empty : MlirState := ⟨[], []⟩

/-- MlirTracer::GetId: resolves identity by pointer; on a miss derives the
register tag from the type string and mints tag+ordinal. -/
def GetId (st : MlirState) (ptr : Nat) (type : String) : String × MlirState :=
  match mapLookup st.idMap ptr with
  | some v => (v, st)
  | none =>
    let pfx :=
      if strFind type "ciphertext" then "ct"
      else if strFind type "plaintext" then "pt"
      else if strFind type "publickey" then "pk"
      else if strFind type "privatekey" then "sk"
      else if strFind type "context" then "cc"
      else if strFind type "params" then "params"
      else "obj"
    let id := (mapLookup st.counters pfx).getD 0 + 1
    (pfx ++ toString id,
     { idMap := mapInsert st.idMap ptr (pfx ++ toString id),
       counters := mapInsert st.counters pfx id })

end MlirTracer

/-- A host cryptographic object as registration call sites see it: its raw
address (what ciphertext.get() yields) and its canonical binary
serialization. -/
structure HostObject where
  addr : Nat
  bytes : String
deriving DecidableEq

/-- MlirFunctionTracer::addInput and addOutput resolve the symbolic name
through MlirTracer::GetId applied to the raw pointer of the object; the
serialized content is never consulted. -/
def MlirFunctionTracer.resolveId (st : MlirTracer.MlirState) (obj : HostObject)
    (type : String) : String × MlirTracer.MlirState :=
  MlirTracer.GetId st obj.addr type


/-! ## Ordinal minting (C5) -/


namespace SimpleFunctionTracer


end SimpleFunctionTracer


/-! ## Vector formatting with truncation (C4) -/

namespace SimpleFunctionTracer

/-- Pieces of a formatted vector: the element renderings the loop emitted,
in order, and the count announced by the trailing more-elements marker when
the loop broke early. -/
structure FormattedVector where
  rendered : List String
  marker : Option Nat
deriving DecidableEq

/-- The loop of SimpleFunctionTracer::formatVector in simpletracer.h: each
iteration renders element i, and if i has reached 10 the loop then appends
the marker with the count of elements after position i and breaks. -/
def formatVectorLoop (total : Nat) : Nat → List Int → FormattedVector
  | _, [] => ⟨[], none⟩
  | i, v :: rest =>
    if 10 ≤ i then ⟨[toString v], some (total - i - 1)⟩
    else
      ⟨toString v :: (formatVectorLoop total (i + 1) rest).rendered,
       (formatVectorLoop total (i + 1) rest).marker⟩

/-- Re-assembly of the bracketed text the source stream receives. -/
def FormattedVector.render (fv : FormattedVector) : String :=
  "[" ++ String.intercalate ", " fv.rendered
      ++ (match fv.marker with
          | some r => ", ...(" ++ toString r ++ " more)"
          | none => "") ++ "]"

/-- The structural content of formatVector (simpletracer.h variant). -/
def formatVectorPieces (values : List Int) : FormattedVector :=
  formatVectorLoop values.length 0 values

/-- SimpleFunctionTracer::formatVector, simpletracer.h variant. -/
def formatVector (values : List Int) (typeName : String) : String :=
  (formatVectorPieces values).render ++ " : " ++ typeName

/-- The structural content of formatVector in the part_000 iteration: empty
vectors short-circuit; otherwise element 0 is rendered, the loop renders
indices 1 up to min(size, 16), and a marker reporting size - 16 follows
exactly when size exceeds 16. -/
def formatVectorPieces000 (values : List Int) : FormattedVector :=
  match values with
  | [] => ⟨[], none⟩
  | v :: rest =>
    ⟨toString v :: (rest.take (min values.length 16 - 1)).map toString,
     if 16 < values.length then some (values.length - 16) else none⟩

/-- SimpleFunctionTracer::formatVector, part_000 variant. -/
def formatVector000 (values : List Int) (elementTypeName : String) : String :=
  match values with
  | [] => "[] : " ++ elementTypeName
  | _ :: _ =>
    "[" ++ String.intercalate ", " (formatVectorPieces000 values).rendered
        ++ (match (formatVectorPieces000 values).marker with
            | some r => ", ...(" ++ toString r ++ " more)"
            | none => "")
        ++ "] : vector<" ++ elementTypeName ++ ">"

end SimpleFunctionTracer

/-- The truncation law stated by the specification for a threshold N:
formatting a vector of length L renders exactly min(L, N) elements and the
trailing marker, stating L - N, appears exactly when L exceeds N. -/
def TruncationLaw (fmt : List Int → SimpleFunctionTracer.FormattedVector) (N : Nat) : Prop :=
  ∀ values : List Int,
    (fmt values).rendered.length = min values.length N ∧
    (fmt values).marker
      = if N < values.length then some (values.length - N) else none


/-! ## Scope nesting and the facade level counter (C6, C10) -/

namespace SimpleTracer

/-- SimpleTracer::EndFunction: the nesting level is decremented only when
strictly positive.  The C++ counter is an unsigned integer; it is modelled
as Int so that the absence of wrap-around is a provable statement rather
than a typing artifact. -/
def EndFunction (level : Int) : Int := if 0 < level then level - 1 else level

end SimpleTracer

/-- Text-backend session state: the facade nesting level and the lines
written to the output stream so far, each carrying its leading tab count. -/
structure TextSession where
  level : Int
  output : List (Int × String)
deriving DecidableEq

/-- Scope handle made by SimpleTracer::StartFunctionTrace: the function name
together with the captured pre-increment facade level, which the destructor
later uses as the indentation depth of the line it writes. -/
structure ScopeHandle where
  func : String
  level : Int
deriving DecidableEq

/-- SimpleTracer::StartFunctionTrace: captures the current level into the
new scope handle and post-increments the facade level. -/
def SimpleTracer.StartFunctionTrace (s : TextSession) (func : String) :
    ScopeHandle × TextSession :=
  (⟨func, s.level⟩, { s with level := s.level + 1 })

/-- SimpleFunctionTracer::printList: empty lists print nothing, otherwise a
labelled bracketed list. -/
def printList (list : List String) (label : String) : String :=
  if list.isEmpty then ""
  else " " ++ label ++ "=[" ++ String.intercalate ", " list ++ "]"

/-- The line content the SimpleFunctionTracer destructor writes after the
indentation tabs. -/
def renderLine (func : String) (inputs outputs : List String) : String :=
  func ++ printList inputs "inputs" ++ printList outputs "outputs"

/-- The SimpleFunctionTracer destructor: appends the line for this scope at
the indentation captured at open time, then calls EndFunction. -/
def SimpleFunctionTracer.close (s : TextSession) (h : ScopeHandle)
    (inputs outputs : List String) : TextSession :=
  { level := SimpleTracer.EndFunction s.level,
    output := s.output ++ [(h.level, renderLine h.func inputs outputs)] }


/-- A facade-level operation: a scope opening (StartFunctionTrace, which
increments the level) or a scope closing (whose destructor calls
EndFunction). -/
inductive ScopeOp
  | start
  | close
deriving DecidableEq

/-- The facade level after a sequence of scope operations. -/
def runLevel : Int → List ScopeOp → Int
  | l, [] => l
  | l, .start :: ops => runLevel (l + 1) ops
  | l, .close :: ops => runLevel (SimpleTracer.EndFunction l) ops


/-! ## The traced value domain of the FunctionTracer interface -/

/-- A ciphertext-like host object: its canonical binary serialization and
its DCRTPoly element vector.  Each entry of elems records the
GetNumOfElements() count of that element and stands in for the raw element
data, which the tracer stores but never interprets. -/
structure CtObj where
  bytes : String
  elems : List Nat
deriving DecidableEq

/-- Canonical binary serialization of a possibly-null object handle; the
host serializer is opaque, and a null handle serializes to a distinguished
byte string. -/
def serializeObj : Option CtObj → String
  | none => "<null>"
  | some c => c.bytes

/-- The virtual registerOutput overload set of the FunctionTracer interface
in tracing.h, one constructor per overload.  Scalar payloads that the
tracer only ever streams out (double, complex parts) are carried as their
opaque decimal renderings; the sign test the complex formatter branches on
is carried as a Bool. -/
inductive TraceVal where
  | ciphertext (c : Option CtObj)
  | constCiphertext (c : Option CtObj)
  | plaintext (p : Option CtObj)
  | keyPair (pub sec : Option String)
  | evalKey (bytes : String)
  | evalKeyVec (keys : List String)
  | ciphertextVec (cts : List CtObj)
  | evalKeyMap (m : Option (List (Nat × String)))
  | publicKey (bytes : String)
  | privateKey (bytes : String)
  | str (s : String)
  | element (bytes : String)
deriving DecidableEq

/-- SimpleFunctionTracer scope state: the registry shared with the owning
SimpleTracer plus the entry lists of this scope. -/
structure SimpleFTState where
  reg : RegistryState
  inputs : List String
  outputs : List String
deriving DecidableEq

namespace SimpleFunctionTracer

/-- The per-element loop of the vector registerOutput overloads of
simpletracer.h: hash and resolve each element under the given type tag,
and after rendering index 10 emit the remaining-count marker and break. -/
def registerVecIds (type : String) (total : Nat) :
    Nat → RegistryState → List String → List String × Option Nat × RegistryState
  | _, st, [] => ([], none, st)
  | i, st, b :: rest =>
    let (id, st') := getID st b type
    if 10 ≤ i then ([id], some (total - i - 1), st')
    else
      let (ids, mk, st'') := registerVecIds type total (i + 1) st' rest
      (id :: ids, mk, st'')

/-- The per-entry loop of the evalKeyMap registerOutput overload of
simpletracer.h: resolve each eval key, break once the post-incremented
count reaches 10, announcing how many entries were not shown. -/
def registerMapIds (total : Nat) :
    Nat → RegistryState → List (Nat × String) → List String × Option Nat × RegistryState
  | _, st, [] => ([], none, st)
  | cnt, st, (k, b) :: rest =>
    let (id, st') := getID st b "eval_key"
    let entry := toString k ++ ": " ++ id
    if 10 ≤ cnt + 1 then ([entry], some (total - (cnt + 1)), st')
    else
      let (es, mk, st'') := registerMapIds total (cnt + 1) st' rest
      (entry :: es, mk, st'')

/-- The trailing more-elements marker text. -/
def markerText : Option Nat → String
  | some r => ", ...(" ++ toString r ++ " more)"
  | none => ""

/-- The complex formatter: explicit plus sign exactly when the imaginary
part is non-negative. -/
def renderComplex (re im : String) (imNonneg : Bool) : String :=
  "(" ++ re ++ (if imNonneg then "+" else "") ++ im ++ "i)"

/-- SimpleFunctionTracer::registerOutput, simpletracer.h: one overload per
TraceVal constructor; each records its entry through the shared registry
and returns its argument. -/
def registerOutput (st : SimpleFTState) (v : TraceVal) (name : String) :
    TraceVal × SimpleFTState :=
  match v with
  | .ciphertext c =>
    (.ciphertext c,
     let (reg', out') := registerObjectHelper st.reg (serializeObj c) "ciphertext" name st.outputs
     { st with reg := reg', outputs := out' })
  | .constCiphertext c =>
    (.constCiphertext c,
     let (reg', out') :=
       registerObjectHelper st.reg (serializeObj c) "const_ciphertext" name st.outputs
     { st with reg := reg', outputs := out' })
  | .plaintext p =>
    (.plaintext p,
     let (reg', out') := registerObjectHelper st.reg (serializeObj p) "plaintext" name st.outputs
     { st with reg := reg', outputs := out' })
  | .keyPair pub sec =>
    (.keyPair pub sec,
     let st₁ :=
       match pub with
       | some b =>
         let (reg', out') :=
           registerObjectHelper st.reg b "public_key" (name ++ "_public") st.outputs
         { st with reg := reg', outputs := out' }
       | none => st
     match sec with
     | some b =>
       let (reg', out') :=
         registerObjectHelper st₁.reg b "private_key" (name ++ "_private") st₁.outputs
       { st₁ with reg := reg', outputs := out' }
     | none => st₁)
  | .evalKey b =>
    (.evalKey b,
     let (reg', out') := registerObjectHelper st.reg b "eval_key" name st.outputs
     { st with reg := reg', outputs := out' })
  | .evalKeyVec ks =>
    (.evalKeyVec ks,
     let (ids, mk, reg') := registerVecIds "eval_key" ks.length 0 st.reg ks
     { st with
        reg := reg',
        outputs := st.outputs ++
          [name ++ " [" ++ String.intercalate ", " ids ++ markerText mk
            ++ "] : vector<EvalKey>"] })
  | .ciphertextVec cs =>
    (.ciphertextVec cs,
     let (ids, mk, reg') :=
       registerVecIds "ciphertext" cs.length 0 st.reg (cs.map (fun c => c.bytes))
     { st with
        reg := reg',
        outputs := st.outputs ++
          [name ++ " [" ++ String.intercalate ", " ids ++ markerText mk
            ++ "] : vector<Ciphertext>"] })
  | .evalKeyMap m =>
    (.evalKeyMap m,
     let (es, mk, reg') :=
       match m with
       | some entries =>
         if entries.isEmpty then ([], none, st.reg)
         else registerMapIds entries.length 0 st.reg entries
       | none => ([], none, st.reg)
     { st with
        reg := reg',
        outputs := st.outputs ++
          [name ++ " \x7b" ++ String.intercalate ", " es ++ markerText mk
            ++ "\x7d : map<uint32_t, EvalKey>"] })
  | .publicKey b =>
    (.publicKey b,
     let (reg', out') := registerObjectHelper st.reg b "public_key" name st.outputs
     { st with reg := reg', outputs := out' })
  | .privateKey b =>
    (.privateKey b,
     let (reg', out') := registerObjectHelper st.reg b "private_key" name st.outputs
     { st with reg := reg', outputs := out' })
  | .str s =>
    (.str s,
     { st with outputs := st.outputs ++ [name ++ " \"" ++ s ++ "\" : string"] })
  | .element b =>
    -- simpletracer.h leaves this pure virtual unimplemented; the part_000
    -- iteration registers the element as an object under the tag element
    (.element b,
     let (reg', out') := registerObjectHelper st.reg b "element" name st.outputs
     { st with reg := reg', outputs := out' })

/-- The non-virtual scalar registerOutput extras of simpletracer.h.  Each
streams a formatted entry and returns its argument. -/
def registerOutputDouble (st : SimpleFTState) (d name : String) : String × SimpleFTState :=
  (d, { st with outputs := st.outputs ++ [name ++ " " ++ d ++ " : double"] })

def registerOutputComplex (st : SimpleFTState) (re im : String) (imNonneg : Bool)
    (name : String) : (String × String × Bool) × SimpleFTState :=
  ((re, im, imNonneg),
   { st with outputs := st.outputs ++
      [name ++ " " ++ renderComplex re im imNonneg ++ " : complex<double>"] })

def registerOutputInt64 (st : SimpleFTState) (n : Int) (name : String) : Int × SimpleFTState :=
  (n, { st with outputs := st.outputs ++ [name ++ " " ++ toString n ++ " : int64_t"] })

def registerOutputSizeT (st : SimpleFTState) (n : Nat) (name : String) : Nat × SimpleFTState :=
  (n, { st with outputs := st.outputs ++ [name ++ " " ++ toString n ++ " : size_t"] })

def registerOutputInt64Vec (st : SimpleFTState) (ns : List Int) (name : String) :
    List Int × SimpleFTState :=
  (ns, { st with outputs := st.outputs ++
          [name ++ " " ++ formatVector ns "vector<int64_t>"] })

end SimpleFunctionTracer

/-! ## The HERACLES protobuf backend -/

/-- An OperandObject in a HERACLES instruction: symbol name, RNS limb
count, and order. -/
structure HeraclesOperand where
  symbol : String
  numRNS : Nat
  order : Nat
deriving DecidableEq

/-- HeraclesTracer::storeData: empty element vectors are not pooled;
otherwise the pool entry for the symbol is written. -/
def HeraclesTracer.storeData (pool : List (String × List Nat)) (objectId : String)
    (dcrtpolys : List Nat) : List (String × List Nat) :=
  if dcrtpolys.isEmpty then pool else mapInsert pool objectId dcrtpolys

/-- HeraclesFunctionTracer scope state: the shared registry, the
destination operands of the current instruction, the data pool of the
owning tracer, and the meaningful-output flag. -/
structure HeraclesFTState where
  reg : RegistryState
  dests : List HeraclesOperand
  pool : List (String × List Nat)
  hasOutput : Bool
deriving DecidableEq

namespace HeraclesFunctionTracer

/-- The ciphertext destination path shared by the ciphertext registerOutput
overloads: null or element-free ciphertexts are skipped entirely;
otherwise the object is resolved through getObjectId (same logic as
getID), appended as a destination operand carrying the limb count of
element 0 and the order, and its element data is pooled. -/
def registerOutputCt (st : HeraclesFTState) (c : Option CtObj) : HeraclesFTState :=
  match c with
  | none => st
  | some c =>
    match c.elems with
    | [] => st
    | e :: _ =>
      let (objectId, reg') := SimpleFunctionTracer.getID st.reg c.bytes "ciphertext"
      { reg := reg',
        dests := st.dests ++ [⟨objectId, e, c.elems.length⟩],
        pool := HeraclesTracer.storeData st.pool objectId c.elems,
        hasOutput := true }

/-- HeraclesFunctionTracer::registerOutput: ciphertexts and plaintexts are
recorded as destination operands, key-shaped and string outputs only set
the meaningful-output flag, raw elements are passed straight through; every
overload returns its argument. -/
def registerOutput (st : HeraclesFTState) (v : TraceVal) (name : String) :
    TraceVal × HeraclesFTState :=
  match v with
  | .ciphertext c => (.ciphertext c, registerOutputCt st c)
  | .constCiphertext c => (.constCiphertext c, registerOutputCt st c)
  | .plaintext p =>
    (.plaintext p,
     match p with
     | none => st
     | some p =>
       let (objectId, reg') := SimpleFunctionTracer.getID st.reg p.bytes "plaintext"
       -- storeDataIfNeeded is a no-op for plaintexts in this backend
       { st with reg := reg', dests := st.dests ++ [⟨objectId, 0, 1⟩], hasOutput := true })
  | .keyPair pub sec => (.keyPair pub sec, { st with hasOutput := true })
  | .evalKey b => (.evalKey b, { st with hasOutput := true })
  | .evalKeyVec ks => (.evalKeyVec ks, { st with hasOutput := true })
  | .ciphertextVec cs =>
    (.ciphertextVec cs, cs.foldl (fun s c => registerOutputCt s (some c)) st)
  | .evalKeyMap m => (.evalKeyMap m, { st with hasOutput := true })
  | .publicKey b => (.publicKey b, { st with hasOutput := true })
  | .privateKey b => (.privateKey b, { st with hasOutput := true })
  | .str s => (.str s, { st with hasOutput := true })
  | .element b => (.element b, st)

end HeraclesFunctionTracer

/-! ## The Null backend -/

/-- Observable state of the Null backend: the artifacts it has produced
and the unused level field of NullTracer. -/
structure NullState where
  artifacts : List String
  level : Int
deriving DecidableEq

namespace NullFunctionTracer

/-- NullFunctionTracer::registerOutput: every override has an empty body
and returns its argument unchanged. -/
def registerOutput (s : NullState) (v : TraceVal) : TraceVal × NullState :=
  match v with
  | .ciphertext c => (.ciphertext c, s)
  | .constCiphertext c => (.constCiphertext c, s)
  | .plaintext p => (.plaintext p, s)
  | .keyPair pub sec => (.keyPair pub sec, s)
  | .evalKey b => (.evalKey b, s)
  | .evalKeyVec ks => (.evalKeyVec ks, s)
  | .ciphertextVec cs => (.ciphertextVec cs, s)
  | .evalKeyMap m => (.evalKeyMap m, s)
  | .publicKey b => (.publicKey b, s)
  | .privateKey b => (.privateKey b, s)
  | .str v => (.str v, s)
  | .element b => (.element b, s)

end NullFunctionTracer

/-- One facade or scope call addressed to the Null backend. -/
inductive NullOp where
  | startFunctionTrace (func : String)
  | closeScope
  | registerInput (v : TraceVal) (name : String)
  | registerOutput (v : TraceVal) (name : String)
  | traceDataUpdate (func : String)
  | registerSource (v : TraceVal) (name : String)
  | registerDestination (v : TraceVal) (name : String)
deriving DecidableEq

namespace NullBackend

/-- One step against the Null backend: StartFunctionTrace returns a fresh
no-op handle without writing, destruction of a NullFunctionTracer is the
default destructor, every registerInput body is empty, registerOutput is
the identity pass-through, and the data-movement handles are no-ops. -/
def step (s : NullState) : NullOp → NullState × Option TraceVal
  | .startFunctionTrace _ => (s, none)
  | .closeScope => (s, none)
  | .registerInput _ _ => (s, none)
  | .registerOutput v _ =>
    ((NullFunctionTracer.registerOutput s v).2,
     some (NullFunctionTracer.registerOutput s v).1)
  | .traceDataUpdate _ => (s, none)
  | .registerSource _ _ => (s, none)
  | .registerDestination _ _ => (s, none)

/-- Run of an operation sequence against the Null backend, collecting the
values returned by registerOutput calls in order. -/
def run (s : NullState) : List NullOp → NullState × List TraceVal
  | [] => (s, [])
  | op :: ops =>
    ((run (step s op).1 ops).1,
     match (step s op).2 with
     | some v => v :: (run (step s op).1 ops).2
     | none => (run (step s op).1 ops).2)

end NullBackend

/-! ## The MLIR backend registerOutput overloads -/

/-- MlirTracer::GetType: the IR type derived from the type tag. -/
def MlirTracer.GetType (type : String) : String :=
  if MlirTracer.strFind type "ciphertext" then "!lwe.ct"
  else if MlirTracer.strFind type "plaintext" then "!lwe.pt"
  else if MlirTracer.strFind type "publickey" then "!openfhe.pk"
  else if MlirTracer.strFind type "privatekey" then "!openfhe.sk"
  else if MlirTracer.strFind type "context" then "!openfhe.cc"
  else if MlirTracer.strFind type "params" then "!openfhe.params"
  else "!openfhe.obj"

/-- MlirFunctionTracer scope state. -/
structure MlirFTState where
  tracer : MlirTracer.MlirState
  inputs : List String
  inputTypes : List String
  outputs : List String
  outputTypes : List String
deriving DecidableEq

namespace MlirFunctionTracer

/-- MlirFunctionTracer::addOutput: resolve the register name from the raw
pointer and append the register and its IR type. -/
def addOutput (st : MlirFTState) (ptr : Nat) (type : String) : MlirFTState :=
  let (id, tr') := MlirTracer.GetId st.tracer ptr type
  { st with
      tracer := tr',
      outputs := st.outputs ++ ["%" ++ id],
      outputTypes := st.outputTypes ++ [MlirTracer.GetType type] }

/-- The three registerOutput overloads of MlirFunctionTracer, each passing
its argument through. -/
def registerOutputCiphertext (st : MlirFTState) (obj : HostObject) :
    HostObject × MlirFTState :=
  (obj, addOutput st obj.addr "ciphertext")

def registerOutputConstCiphertext (st : MlirFTState) (obj : HostObject) :
    HostObject × MlirFTState :=
  (obj, addOutput st obj.addr "ciphertext")

def registerOutputPlaintext (st : MlirFTState) (obj : HostObject) :
    HostObject × MlirFTState :=
  (obj, addOutput st obj.addr "plaintext")

end MlirFunctionTracer

/-! ## Raw-pointer registration (C9) -/

/-- Lowercase hexadecimal rendering of an address, as operator<< with
std::hex produces. -/
def toHex (n : Nat) : String := String.mk (Nat.toDigits 16 n)

/-- SimpleFunctionTracer::registerInput(void*): renders the address in hex
with an explicit void* type marker and appends it to the input list; the
call then returns normally. -/
def SimpleFunctionTracer.registerInputVoidPtr (st : SimpleFTState) (ptr : Nat)
    (name : String) : SimpleFTState :=
  { st with inputs := st.inputs ++ [name ++ " 0x" ++ toHex ptr ++ " : void*"] }

/-- HeraclesFunctionTracer::registerInput(void*): throws at the call site;
nothing is recorded. -/
def HeraclesFunctionTracer.registerInputVoidPtr (st : HeraclesFTState) (ptr : Nat)
    (name : String) : Except String HeraclesFTState :=
  Except.error "HERACLES tracing does not support registering non-typed inputs."

/-! ## Protobuf test-vector generation (C3) -/

/-- One finalized HERACLES instruction. -/
structure HeraclesInstr where
  op : String
  dests : List HeraclesOperand
  srcs : List HeraclesOperand
deriving DecidableEq

/-- The symbols generateTestVector collects from the finalized instruction
list: every destination symbol and every source symbol of every
instruction (an unordered set in the source, a deduplicated list here). -/
def usedSymbols (instrs : List HeraclesInstr) : List String :=
  (instrs.foldr
    (fun ins acc =>
      ins.dests.map (fun o => o.symbol) ++ ins.srcs.map (fun o => o.symbol) ++ acc)
    []).dedup

/-- HeraclesTracer::convertDCRTPolyToProtobuf reshapes raw coefficient data
into its protobuf form; the reshaping is content-opaque for the claims
here, so the data is carried through unchanged. -/
def HeraclesTracer.convertDCRTPolyToProtobuf (data : List Nat) : List Nat := data

/-- HeraclesTracer::generateTestVector: for each symbol referenced by the
final instruction list, and only for those, the pooled data (when present)
is converted and placed in the test-vector map. -/
def HeraclesTracer.generateTestVector (instrs : List HeraclesInstr)
    (pool : List (String × List Nat)) : List (String × List Nat) :=
  (usedSymbols instrs).filterMap
    (fun s => (mapLookup pool s).map
      (fun d => (s, HeraclesTracer.convertDCRTPolyToProtobuf d)))

/-! ## Protobuf context extraction (C8) -/

/-- The host scheme identifier as the switch in the source sees it: the
three RNS schemes, and one representative of every other value the enum
can carry (the default case of the switch). -/
inductive SchemeId where
  | ckksrns
  | bgvrns
  | bfvrns
  | invalid
deriving DecidableEq

/-- The HERACLES wire scheme enum. -/
inductive HeraclesScheme where
  | ckks
  | bgv
  | bfv
deriving DecidableEq

/-- Those host-context observables the context extraction consumes. -/
structure CryptoContextInfo where
  schemeId : SchemeId
  isRNS : Bool
  ringDim : Nat
  keyRnsNum : Nat
  numPerPartQ : Nat
  numPartQ : Nat
  qSize : Nat
deriving DecidableEq

/-- The FHEContext document the protobuf backend emits; hasCkksInfo records
whether the scheme-specific CKKS block was populated. -/
structure FHEContextDoc where
  scheme : HeraclesScheme
  hasCkksInfo : Bool
  n : Nat
  keyRnsNum : Nat
  alpha : Nat
  digitSize : Nat
  qSize : Nat
deriving DecidableEq

/-- HeraclesTracer::_initializeContext (heraclestracer.h): rejects
non-RNS parameter sets, populates the CKKS block for CKKS, accepts BGV and
BFV with only the scheme tag set (both marked not fully supported in the
source, with no error raised), and throws only for schemes outside the
three recognized cases. -/
def HeraclesTracer.initializeContext (cc : CryptoContextInfo) :
    Except String FHEContextDoc :=
  if cc.isRNS = false then Except.error "HERACLES requires RNS parameters."
  else
    match cc.schemeId with
    | .ckksrns =>
      Except.ok { scheme := .ckks, hasCkksInfo := true, n := cc.ringDim,
                  keyRnsNum := cc.keyRnsNum, alpha := cc.numPerPartQ,
                  digitSize := cc.numPartQ, qSize := cc.qSize }
    | .bgvrns =>
      Except.ok { scheme := .bgv, hasCkksInfo := false, n := cc.ringDim,
                  keyRnsNum := cc.keyRnsNum, alpha := cc.numPerPartQ,
                  digitSize := cc.numPartQ, qSize := cc.qSize }
    | .bfvrns =>
      Except.ok { scheme := .bfv, hasCkksInfo := false, n := cc.ringDim,
                  keyRnsNum := cc.keyRnsNum, alpha := cc.numPerPartQ,
                  digitSize := cc.numPartQ, qSize := cc.qSize }
    | .invalid => Except.error "Unsupported scheme for HERACLES tracing"

/-- HeraclesTracer::extractFHEContext (part_005): never throws; any scheme
outside the three recognized cases silently falls back to the CKKS tag. -/
def HeraclesTracer.extractFHEContext (cc : CryptoContextInfo) : FHEContextDoc :=
  match cc.schemeId with
  | .ckksrns =>
    { scheme := .ckks, hasCkksInfo := true, n := cc.ringDim,
      keyRnsNum := cc.keyRnsNum, alpha := cc.numPerPartQ,
      digitSize := cc.numPartQ, qSize := cc.qSize }
  | .bgvrns =>
    { scheme := .bgv, hasCkksInfo := false, n := cc.ringDim,
      keyRnsNum := cc.keyRnsNum, alpha := cc.numPerPartQ,
      digitSize := cc.numPartQ, qSize := cc.qSize }
  | .bfvrns =>
    { scheme := .bfv, hasCkksInfo := false, n := cc.ringDim,
      keyRnsNum := cc.keyRnsNum, alpha := cc.numPerPartQ,
      digitSize := cc.numPartQ, qSize := cc.qSize }
  | .invalid =>
    { scheme := .ckks, hasCkksInfo := false, n := cc.ringDim,
      keyRnsNum := cc.keyRnsNum, alpha := cc.numPerPartQ,
      digitSize := cc.numPartQ, qSize := cc.qSize }

/-! ## Claim theorems for pass-through, null backend, test vectors, context -/


/-! ## Theorems -/

theorem mapLookup_mapInsert_self {α β : Type} [DecidableEq α]
    (m : List (α × β)) (k : α) (v : β) : mapLookup (mapInsert m k v) k = some v := by
  induction m with
  | nil => simp [mapInsert, mapLookup]
  | cons hd tl ih =>
    obtain ⟨k', v'⟩ := hd
    by_cases h : k' = k
    · simp [mapInsert, h, mapLookup]
    · simp [mapInsert, h, mapLookup, ih]

theorem mapLookup_mapInsert_ne {α β : Type} [DecidableEq α]
    (m : List (α × β)) {k k' : α} (v : β) (h : k' ≠ k) :
    mapLookup (mapInsert m k' v) k = mapLookup m k := by
  induction m with
  | nil => simp [mapInsert, mapLookup, h]
  | cons hd tl ih =>
    obtain ⟨k₀, v₀⟩ := hd
    by_cases h₀ : k₀ = k'
    · subst h₀
      simp [mapInsert, mapLookup, h]
    · by_cases h₁ : k₀ = k
      · simp [mapInsert, h₀, mapLookup, h₁, Ne.symm h]
      · simp [mapInsert, h₀, mapLookup, h₁, ih]

namespace SimpleFunctionTracer

theorem getID_of_hit {st : RegistryState} {b v : String} (t : String)
    (h : mapLookup st.uniqueID (HashUtil.HashString b) = some v) :
    getID st b t = (v, st) := by
  simp [getID, h]

end SimpleFunctionTracer

namespace SimpleFunctionTracer

theorem getID_lookup_after (st : RegistryState) (b t : String) :
    mapLookup (getID st b t).2.uniqueID (HashUtil.HashString b) = some (getID st b t).1 := by
  unfold getID
  cases h : mapLookup st.uniqueID (HashUtil.HashString b) with
  | some v => simpa using h
  | none => simp [generateObjectId, mapLookup_mapInsert_self]

end SimpleFunctionTracer

namespace SimpleFunctionTracer

theorem getID_preserves {st : RegistryState} {x v : String} (b t : String)
    (h : mapLookup st.uniqueID x = some v) :
    mapLookup (getID st b t).2.uniqueID x = some v := by
  unfold getID
  cases hm : mapLookup st.uniqueID (HashUtil.HashString b) with
  | some w => simpa using h
  | none =>
    have hne : HashUtil.HashString b ≠ x := by
      intro he
      rw [he, h] at hm
      cases hm
    simp [generateObjectId, mapLookup_mapInsert_ne _ _ hne, h]

end SimpleFunctionTracer

/-- If the registry already maps the hash of byte string b to name v, then
every later registration of an object with those bytes returns v. -/
theorem getIDOutputs_known {b v : String} :
    ∀ (evs : List RegEvent) (st : RegistryState),
      mapLookup st.uniqueID (HashUtil.HashString b) = some v →
      ∀ (k : Nat) (a : RegEvent), evs[k]? = some a → a.bytes = b →
        (getIDOutputs st evs)[k]? = some v := by
  intro evs
  induction evs with
  | nil =>
    intro st _ k a ha
    simp at ha
  | cons e es ih =>
    intro st h k a ha hab
    match k with
    | 0 =>
      simp at ha
      subst ha
      rw [← hab] at h
      simp [getIDOutputs, SimpleFunctionTracer.getID_of_hit e.type h]
    | k + 1 =>
      simp only [List.getElem?_cons_succ] at ha
      simp only [getIDOutputs, List.getElem?_cons_succ]
      exact ih _ (SimpleFunctionTracer.getID_preserves e.bytes e.type h) k a ha hab

/-- C1 counterexample: on the MLIR backend, two registration calls on
distinct host-object instances (addresses 1 and 2) whose canonical binary
serializations are byte-identical receive the distinct symbolic names ct1
and ct2, so identity resolution is not content-stable on every backend that
assigns symbolic names. -/
theorem C1_counterexample :
    (⟨1, "samebytes"⟩ : HostObject).bytes = (⟨2, "samebytes"⟩ : HostObject).bytes ∧
    (MlirFunctionTracer.resolveId MlirTracer.MlirState.empty
        ⟨1, "samebytes"⟩ "ciphertext").1 = "ct1" ∧
    (MlirFunctionTracer.resolveId
        (MlirFunctionTracer.resolveId MlirTracer.MlirState.empty
          ⟨1, "samebytes"⟩ "ciphertext").2
        ⟨2, "samebytes"⟩ "ciphertext").1 = "ct2" ∧
    ("ct1" : String) ≠ "ct2" := by
  refine ⟨rfl, by decide, by decide, by decide⟩

/-- C1 (amended): on the content-hash backends (SimpleTracer and
HeraclesTracer, whose registerObjectHelper, getID and getObjectId all key
m_uniqueID on the hash of the serialized bytes), any two registration calls
on objects with byte-identical canonical serialization return the same
symbolic name, regardless of which host instance is passed, of call order,
and of the other registrations interleaved between them; the MLIR backend
keys identity on the raw pointer instead and is excluded. -/
theorem C1_theorem (st : RegistryState) (evs : List RegEvent) (i j : Nat)
    (a b : RegEvent) (ha : evs[i]? = some a) (hb : evs[j]? = some b)
    (heq : a.bytes = b.bytes) :
    (getIDOutputs st evs)[i]? = (getIDOutputs st evs)[j]? := by
  induction evs generalizing st i j with
  | nil => simp at ha
  | cons e es ih =>
    match i, j with
    | 0, 0 => rfl
    | 0, j + 1 =>
      simp at ha
      subst ha
      simp only [List.getElem?_cons_succ] at hb
      simp only [getIDOutputs, List.getElem?_cons_zero, List.getElem?_cons_succ]
      exact (getIDOutputs_known es _
        (SimpleFunctionTracer.getID_lookup_after st e.bytes e.type) j b hb heq.symm).symm
    | i + 1, 0 =>
      simp at hb
      subst hb
      simp only [List.getElem?_cons_succ] at ha
      simp only [getIDOutputs, List.getElem?_cons_zero, List.getElem?_cons_succ]
      exact getIDOutputs_known es _
        (SimpleFunctionTracer.getID_lookup_after st e.bytes e.type) i a ha heq
    | i + 1, j + 1 =>
      simp only [List.getElem?_cons_succ] at ha hb
      simp only [getIDOutputs, List.getElem?_cons_succ]
      exact ih _ i j ha hb

/-- C1 witness: three concrete registrations, the first and third with
byte-identical serializations, resolve positions 0 and 2 to the same name. -/
theorem C1_witness :
    (getIDOutputs RegistryState.empty
        [⟨"ciphertext", "aa"⟩, ⟨"plaintext", "zz"⟩, ⟨"ciphertext", "aa"⟩])[0]?
      = (getIDOutputs RegistryState.empty
        [⟨"ciphertext", "aa"⟩, ⟨"plaintext", "zz"⟩, ⟨"ciphertext", "aa"⟩])[2]? :=
  C1_theorem RegistryState.empty
    [⟨"ciphertext", "aa"⟩, ⟨"plaintext", "zz"⟩, ⟨"ciphertext", "aa"⟩] 0 2
    ⟨"ciphertext", "aa"⟩ ⟨"ciphertext", "aa"⟩ (by decide) (by decide) rfl

theorem HashUtil.HashString_injective : Function.Injective HashUtil.HashString :=
  fun _ _ h => h

namespace SimpleFunctionTracer

theorem getID_counters_of_miss {st : RegistryState} {b : String} (t : String)
    (h : mapLookup st.uniqueID (HashUtil.HashString b) = none) :
    (getID st b t).2.counters
      = mapInsert st.counters t ((mapLookup st.counters t).getD 0 + 1) := by
  simp [getID, h, generateObjectId]

end SimpleFunctionTracer

namespace SimpleFunctionTracer

theorem getID_uniqueID_of_miss {st : RegistryState} {b : String} (t : String)
    (h : mapLookup st.uniqueID (HashUtil.HashString b) = none) :
    (getID st b t).2.uniqueID
      = mapInsert st.uniqueID (HashUtil.HashString b) (getID st b t).1 := by
  simp [getID, h, generateObjectId]

end SimpleFunctionTracer

/-- Closed form of the minted ordinals for one type: starting from any
registry state, the ordinals minted for type t form the contiguous run that
continues the current counter of t, whatever other types are interleaved. -/
theorem mintedOrdinals_range' :
    ∀ (evs : List RegEvent) (st : RegistryState) (t : String),
      mintedOrdinals st evs t
        = List.range' ((mapLookup st.counters t).getD 0 + 1)
            (mintedOrdinals st evs t).length := by
  intro evs
  induction evs with
  | nil => intro st t; simp [mintedOrdinals, mintsOf]
  | cons e es ih =>
    intro st t
    cases hm : mapLookup st.uniqueID (HashUtil.HashString e.bytes) with
    | some v =>
      have hst : (SimpleFunctionTracer.getID st e.bytes e.type).2 = st := by
        rw [SimpleFunctionTracer.getID_of_hit e.type hm]
      simp only [mintedOrdinals, mintsOf, hm]
      rw [hst]
      exact ih st t
    | none =>
      have hc := @SimpleFunctionTracer.getID_counters_of_miss st e.bytes e.type hm
      by_cases het : e.type = t
      · subst het
        simp only [mintedOrdinals, mintsOf, hm, List.filterMap_cons, if_pos rfl]
        have ih' := ih (SimpleFunctionTracer.getID st e.bytes e.type).2 e.type
        rw [mintedOrdinals] at ih'
        rw [ih', hc, mapLookup_mapInsert_self]
        simp [List.range'_succ]
      · simp only [mintedOrdinals, mintsOf, hm, List.filterMap_cons, if_neg het]
        have ih' := ih (SimpleFunctionTracer.getID st e.bytes e.type).2 t
        rw [mintedOrdinals] at ih'
        rw [ih', hc, mapLookup_mapInsert_ne _ _ het]
        simp [List.length_range']

/-- When every event carries serialized bytes unseen by the registry and the
events are pairwise content-distinct, every event mints, so the number of
ordinals minted for type t equals the number of registrations of type t. -/
theorem mintedOrdinals_length_of_fresh :
    ∀ (evs : List RegEvent) (st : RegistryState),
      (∀ e ∈ evs, mapLookup st.uniqueID (HashUtil.HashString e.bytes) = none) →
      (evs.map (fun e => e.bytes)).Nodup →
      ∀ t, (mintedOrdinals st evs t).length = evs.countP (fun e => e.type = t) := by
  intro evs
  induction evs with
  | nil => intro st _ _ t; simp [mintedOrdinals, mintsOf]
  | cons e es ih =>
    intro st hfresh hnodup t
    have hm := hfresh e (List.mem_cons_self e es)
    have hrest : ∀ e' ∈ es,
        mapLookup (SimpleFunctionTracer.getID st e.bytes e.type).2.uniqueID
          (HashUtil.HashString e'.bytes) = none := by
      intro e' he'
      rw [SimpleFunctionTracer.getID_uniqueID_of_miss e.type hm]
      have hne : HashUtil.HashString e.bytes ≠ HashUtil.HashString e'.bytes := by
        intro hcontra
        have hb : e.bytes = e'.bytes := HashUtil.HashString_injective hcontra
        have : e.bytes ∈ es.map (fun x => x.bytes) :=
          List.mem_map.mpr ⟨e', he', hb.symm⟩
        exact (List.nodup_cons.mp hnodup).1 this
      rw [mapLookup_mapInsert_ne _ _ hne]
      exact hfresh e' (List.mem_cons_of_mem e he')
    have hnodup' := (List.nodup_cons.mp hnodup).2
    by_cases het : e.type = t
    · have ih' := ih _ hrest hnodup' t
      simp only [mintedOrdinals] at ih'
      simp only [mintedOrdinals, mintsOf, hm, List.filterMap_cons, if_pos het,
        List.length_cons, List.countP_cons]
      rw [ih']
      simp [het]
    · have ih' := ih _ hrest hnodup' t
      simp only [mintedOrdinals] at ih'
      simp only [mintedOrdinals, mintsOf, hm, List.filterMap_cons, if_neg het,
        List.countP_cons]
      rw [ih']
      simp [het]

/-- C5 counterexample: interleaving one ciphertext registration with one
plaintext registration whose serialized bytes happen to be identical mints
NO plaintext ordinal (the shared hash map returns the ciphertext name), so
registering k = 1 distinct-content plaintext does not yield the ordinal set
1..1 under arbitrary interleaving with other types. -/
theorem C5_counterexample :
    mintedOrdinals RegistryState.empty
        [⟨"ciphertext", "b"⟩, ⟨"plaintext", "b"⟩] "plaintext" = []
    ∧ ([] : List Nat) ≠ List.range' 1 1
    ∧ getIDOutputs RegistryState.empty
        [⟨"ciphertext", "b"⟩, ⟨"plaintext", "b"⟩]
      = ["ciphertext_1", "ciphertext_1"] := by
  refine ⟨by decide, by decide, by decide⟩

/-- C5 (amended): for a fixed type tag, the minted ordinals are exactly the
contiguous run 1..k (hence strictly increasing, with no repeats, never
decremented) across arbitrary interleavings; and k equals the number of
registrations of that type provided the registered contents are fresh, that
is, pairwise distinct across the WHOLE run including other type tags,
because m_uniqueID is keyed on the content hash alone and a byte-identical
object of another type captures the name and suppresses the mint. -/
theorem C5_theorem (evs : List RegEvent) (t : String) :
    mintedOrdinals RegistryState.empty evs t
      = List.range' 1 (mintedOrdinals RegistryState.empty evs t).length
    ∧ (mintedOrdinals RegistryState.empty evs t).Pairwise (· < ·)
    ∧ ((evs.map (fun e => e.bytes)).Nodup →
        (mintedOrdinals RegistryState.empty evs t).length
          = evs.countP (fun e => e.type = t)) := by
  have h0 := mintedOrdinals_range' evs RegistryState.empty t
  have hc : (mapLookup RegistryState.empty.counters t).getD 0 + 1 = 1 := by
    simp [RegistryState.empty, mapLookup]
  rw [hc] at h0
  refine ⟨h0, ?_, ?_⟩
  · rw [h0]
    exact List.pairwise_lt_range' 1 _ 1
  · intro hnodup
    exact mintedOrdinals_length_of_fresh evs RegistryState.empty
      (by intro e _; simp [RegistryState.empty, mapLookup]) hnodup t

/-- C5 witness: three ciphertexts and two plaintexts with five pairwise
distinct serializations, interleaved, mint ciphertext ordinals 1, 2, 3. -/
theorem C5_witness :
    mintedOrdinals RegistryState.empty
        [⟨"ciphertext", "c1"⟩, ⟨"plaintext", "p1"⟩, ⟨"ciphertext", "c2"⟩,
         ⟨"plaintext", "p2"⟩, ⟨"ciphertext", "c3"⟩] "ciphertext"
      = List.range' 1 3 := by
  have h := C5_theorem
    [⟨"ciphertext", "c1"⟩, ⟨"plaintext", "p1"⟩, ⟨"ciphertext", "c2"⟩,
     ⟨"plaintext", "p2"⟩, ⟨"ciphertext", "c3"⟩] "ciphertext"
  have hlen := h.2.2 (by decide)
  rw [h.1, hlen]
  decide

/-- Closed form of the simpletracer.h formatting loop from any index at or
below 10. -/
theorem formatVectorLoop_spec :
    ∀ (l : List Int) (i total : Nat), i ≤ 10 →
      SimpleFunctionTracer.formatVectorLoop total i l
        = ⟨(l.take (11 - i)).map toString,
           if 11 ≤ l.length + i then some (total - 11) else none⟩ := by
  intro l
  induction l with
  | nil =>
    intro i total hi
    simp only [SimpleFunctionTracer.formatVectorLoop, List.take_nil, List.map_nil,
      List.length_nil, Nat.zero_add]
    rw [if_neg (by omega)]
  | cons v rest ih =>
    intro i total hi
    by_cases h10 : 10 ≤ i
    · have hi10 : i = 10 := by omega
      subst hi10
      simp only [SimpleFunctionTracer.formatVectorLoop, if_pos (le_refl 10)]
      have h1 : 11 - 10 = 0 + 1 := by omega
      rw [h1, List.take_succ_cons, List.take_zero, List.map_cons, List.map_nil,
        List.length_cons, if_pos (by omega)]
      have h2 : total - 10 - 1 = total - 11 := by omega
      rw [h2]
    · simp only [SimpleFunctionTracer.formatVectorLoop, if_neg h10]
      rw [ih (i + 1) total (by omega)]
      have h1 : 11 - i = (11 - (i + 1)) + 1 := by omega
      rw [h1, List.take_succ_cons, List.map_cons, List.length_cons]
      have h2 : rest.length + (i + 1) = rest.length + 1 + i := by omega
      rw [h2]

/-- C4 counterexample: no truncation threshold N satisfies the stated law
for the simpletracer.h formatVector.  At length 12 the loop renders 11
elements, forcing N = 11, but at length 11 it still emits a marker, namely
a zero-remaining marker, where the law demands none at L = N. -/
theorem C4_counterexample :
    ¬ ∃ N, TruncationLaw SimpleFunctionTracer.formatVectorPieces N := by
  rintro ⟨N, hN⟩
  have h12 := (hN (List.replicate 12 0)).1
  have h11 := (hN (List.replicate 11 0)).2
  have e12 : (SimpleFunctionTracer.formatVectorPieces
      (List.replicate 12 0)).rendered.length = 11 := by decide
  have e11 : (SimpleFunctionTracer.formatVectorPieces
      (List.replicate 11 0)).marker = some 0 := by decide
  rw [e12, List.length_replicate] at h12
  rw [e11, List.length_replicate] at h11
  have hN11 : N = 11 := by omega
  subst hN11
  simp at h11

/-- C4 (amended): the simpletracer.h formatVector renders exactly
min(L, 11) elements and emits the marker, stating L - 11, exactly when
L is at least 11 — so at L = 11 every element is rendered and a marker
announcing zero further elements still appears; the part_000 variant of
formatVector satisfies the specified truncation law exactly, with
threshold N = 16. -/
theorem C4_theorem (values : List Int) :
    (SimpleFunctionTracer.formatVectorPieces values).rendered.length
        = min values.length 11
    ∧ (SimpleFunctionTracer.formatVectorPieces values).marker
        = (if 11 ≤ values.length then some (values.length - 11) else none)
    ∧ TruncationLaw SimpleFunctionTracer.formatVectorPieces000 16 := by
  have hspec := formatVectorLoop_spec values 0 values.length (by omega)
  refine ⟨?_, ?_, ?_⟩
  · rw [SimpleFunctionTracer.formatVectorPieces, hspec]
    simp [List.length_take, Nat.min_comm]
  · rw [SimpleFunctionTracer.formatVectorPieces, hspec]
    simp
  · intro vs
    cases vs with
    | nil => simp [SimpleFunctionTracer.formatVectorPieces000]
    | cons v rest =>
      constructor
      · simp only [SimpleFunctionTracer.formatVectorPieces000, List.length_cons,
          List.length_map, List.length_take]
        omega
      · simp [SimpleFunctionTracer.formatVectorPieces000]

/-- C6: opening scope A, then nested scope B, then closing B, then closing
A appends exactly two lines to the text trace, the line of B first (LIFO
close order) and then the line of A, with the line of B indented strictly
deeper than the line of A. -/
theorem C6_theorem (s : TextSession) (a b : String)
    (inA outA inB outB : List String) :
    (SimpleFunctionTracer.close
        (SimpleFunctionTracer.close
          (SimpleTracer.StartFunctionTrace
            (SimpleTracer.StartFunctionTrace s a).2 b).2
          (SimpleTracer.StartFunctionTrace
            (SimpleTracer.StartFunctionTrace s a).2 b).1 inB outB)
        (SimpleTracer.StartFunctionTrace s a).1 inA outA).output
      = s.output ++ [(s.level + 1, renderLine b inB outB),
                     (s.level, renderLine a inA outA)]
    ∧ s.level < s.level + 1 := by
  constructor
  · simp [SimpleFunctionTracer.close, SimpleTracer.StartFunctionTrace]
  · omega

theorem runLevel_nonneg : ∀ (ops : List ScopeOp) (l : Int), 0 ≤ l → 0 ≤ runLevel l ops := by
  intro ops
  induction ops with
  | nil => intro l hl; simpa [runLevel] using hl
  | cons op rest ih =>
    intro l hl
    cases op with
    | start => exact ih (l + 1) (by omega)
    | close =>
      refine ih (SimpleTracer.EndFunction l) ?_
      unfold SimpleTracer.EndFunction
      split <;> omega

/-- C10: starting from level zero, any sequence of scope opens and closes,
including unbalanced sequences with more closes than opens, leaves the
facade nesting level at zero or above: EndFunction decrements only a
strictly positive level, so the counter never underflows. -/
theorem C10_theorem (ops : List ScopeOp) : 0 ≤ runLevel 0 ops :=
  runLevel_nonneg ops 0 le_rfl

theorem NullFunctionTracer.registerOutput_eq (s : NullState) (v : TraceVal) :
    NullFunctionTracer.registerOutput s v = (v, s) := by
  cases v <;> rfl

/-- C2: every registerOutput overload on every backend is an identity
pass-through on its returned value: the SimpleTracer object overloads and
its non-virtual scalar extras, the HeraclesTracer overloads, the
NullTracer overloads, and the MlirTracer overloads all return their
argument unchanged. -/
theorem C2_theorem :
    (∀ (st : SimpleFTState) (v : TraceVal) (name : String),
        (SimpleFunctionTracer.registerOutput st v name).1 = v)
    ∧ (∀ (st : SimpleFTState) (d name : String),
        (SimpleFunctionTracer.registerOutputDouble st d name).1 = d)
    ∧ (∀ (st : SimpleFTState) (re im : String) (sgn : Bool) (name : String),
        (SimpleFunctionTracer.registerOutputComplex st re im sgn name).1 = (re, im, sgn))
    ∧ (∀ (st : SimpleFTState) (n : Int) (name : String),
        (SimpleFunctionTracer.registerOutputInt64 st n name).1 = n)
    ∧ (∀ (st : SimpleFTState) (n : Nat) (name : String),
        (SimpleFunctionTracer.registerOutputSizeT st n name).1 = n)
    ∧ (∀ (st : SimpleFTState) (ns : List Int) (name : String),
        (SimpleFunctionTracer.registerOutputInt64Vec st ns name).1 = ns)
    ∧ (∀ (st : HeraclesFTState) (v : TraceVal) (name : String),
        (HeraclesFunctionTracer.registerOutput st v name).1 = v)
    ∧ (∀ (s : NullState) (v : TraceVal),
        (NullFunctionTracer.registerOutput s v).1 = v)
    ∧ (∀ (st : MlirFTState) (obj : HostObject),
        (MlirFunctionTracer.registerOutputCiphertext st obj).1 = obj
        ∧ (MlirFunctionTracer.registerOutputConstCiphertext st obj).1 = obj
        ∧ (MlirFunctionTracer.registerOutputPlaintext st obj).1 = obj) := by
  refine ⟨?_, fun _ _ _ => rfl, fun _ _ _ _ _ => rfl, fun _ _ _ => rfl, fun _ _ _ => rfl,
    fun _ _ _ => rfl, ?_, ?_, fun _ _ => ⟨rfl, rfl, rfl⟩⟩
  · intro st v name
    cases v <;> rfl
  · intro st v name
    cases v <;> rfl
  · intro s v
    cases v <;> rfl

/-- C7: running any sequence of facade and scope operations against the
Null backend leaves its observable state exactly unchanged (no artifact is
produced, no state is modified), and the values returned are exactly the
arguments of the registerOutput calls, unchanged and in order. -/
theorem C7_theorem (s : NullState) (ops : List NullOp) :
    (NullBackend.run s ops).1 = s
    ∧ (NullBackend.run s ops).2
        = ops.filterMap (fun op =>
            match op with
            | .registerOutput v _ => some v
            | _ => none) := by
  induction ops generalizing s with
  | nil => exact ⟨rfl, rfl⟩
  | cons op rest ih =>
    cases op <;>
      simp [NullBackend.run, NullBackend.step, NullFunctionTracer.registerOutput_eq,
        List.filterMap_cons, (ih s).1, (ih s).2]

/-- Membership in the symbol set generateTestVector scans from the
finalized instruction list. -/
theorem mem_usedSymbols (instrs : List HeraclesInstr) (s : String) :
    s ∈ usedSymbols instrs
      ↔ ∃ ins ∈ instrs,
          (∃ o ∈ ins.dests, o.symbol = s) ∨ (∃ o ∈ ins.srcs, o.symbol = s) := by
  rw [usedSymbols, List.mem_dedup]
  induction instrs with
  | nil => simp
  | cons ins rest ih =>
    simp only [List.foldr_cons, List.mem_append, List.mem_map, ih, List.mem_cons]
    constructor
    · rintro ((⟨o, ho, rfl⟩ | ⟨o, ho, rfl⟩) | ⟨i, hi, h⟩)
      · exact ⟨ins, Or.inl rfl, Or.inl ⟨o, ho, rfl⟩⟩
      · exact ⟨ins, Or.inl rfl, Or.inr ⟨o, ho, rfl⟩⟩
      · exact ⟨i, Or.inr hi, h⟩
    · rintro ⟨i, hi | hi, h⟩
      · subst hi
        rcases h with ⟨o, ho, rfl⟩ | ⟨o, ho, rfl⟩
        · exact Or.inl (Or.inl ⟨o, ho, rfl⟩)
        · exact Or.inl (Or.inr ⟨o, ho, rfl⟩)
      · exact Or.inr ⟨i, hi, h⟩

/-- Lookup in the filterMap that generateTestVector builds over the used
symbols. -/
theorem lookup_generateTestVector (pool : List (String × List Nat)) :
    ∀ (xs : List String) (k : String),
      (mapLookup (xs.filterMap
          (fun s => (mapLookup pool s).map
            (fun d => (s, HeraclesTracer.convertDCRTPolyToProtobuf d)))) k).isSome
        ↔ k ∈ xs ∧ (mapLookup pool k).isSome := by
  intro xs
  induction xs with
  | nil =>
    intro k
    simp [mapLookup]
  | cons x rest ih =>
    intro k
    cases hp : mapLookup pool x with
    | none =>
      simp only [List.filterMap_cons, hp, Option.map_none', List.mem_cons]
      rw [ih]
      by_cases hk : k = x
      · subst hk
        simp [hp]
      · simp [hk]
    | some d =>
      simp only [List.filterMap_cons, hp, Option.map_some', List.mem_cons]
      by_cases hk : x = k
      · subst hk
        simp [mapLookup, hp]
      · simp only [mapLookup, if_neg hk]
        rw [ih]
        constructor
        · rintro ⟨hmem, hsome⟩
          exact ⟨Or.inr hmem, hsome⟩
        · rintro ⟨hx | hmem, hsome⟩
          · exact absurd hx (fun hh => hk hh.symm)
          · exact ⟨hmem, hsome⟩

/-- C3: after finalizing a protobuf trace, the test-vector document has a
data entry for a symbol exactly when that symbol occurs as a destination
or source operand of some instruction in the final instruction list AND
the data pool holds data for it; pooled symbols referenced by no
instruction never appear. -/
theorem C3_theorem (instrs : List HeraclesInstr) (pool : List (String × List Nat))
    (s : String) :
    (mapLookup (HeraclesTracer.generateTestVector instrs pool) s).isSome
      ↔ ((∃ ins ∈ instrs,
            (∃ o ∈ ins.dests, o.symbol = s) ∨ (∃ o ∈ ins.srcs, o.symbol = s))
          ∧ (mapLookup pool s).isSome) := by
  rw [HeraclesTracer.generateTestVector, lookup_generateTestVector, mem_usedSymbols]

/-- C8 counterexample: context extraction presented with the
partially-supported BGV scheme succeeds with a context lacking any
scheme-specific block instead of raising a fatal error, and the part_005
variant presented with an unrecognized scheme silently falls back to a
CKKS-tagged context instead of failing. -/
theorem C8_counterexample :
    HeraclesTracer.initializeContext
        { schemeId := SchemeId.bgvrns, isRNS := true, ringDim := 16, keyRnsNum := 3,
          numPerPartQ := 1, numPartQ := 1, qSize := 2 }
      = Except.ok { scheme := HeraclesScheme.bgv, hasCkksInfo := false, n := 16,
                    keyRnsNum := 3, alpha := 1, digitSize := 1, qSize := 2 }
    ∧ HeraclesTracer.extractFHEContext
        { schemeId := SchemeId.invalid, isRNS := true, ringDim := 16, keyRnsNum := 3,
          numPerPartQ := 1, numPartQ := 1, qSize := 2 }
      = { scheme := HeraclesScheme.ckks, hasCkksInfo := false, n := 16, keyRnsNum := 3,
          alpha := 1, digitSize := 1, qSize := 2 } :=
  ⟨rfl, rfl⟩

/-- C8 (amended): on an RNS parameter set, _initializeContext raises a
fatal error exactly for schemes outside the three recognized cases, with a
fixed message that does not name the scheme; the partially-supported BGV
and BFV schemes are accepted without error and yield a context whose
scheme tag is set but whose scheme-specific block is absent; and the
part_005 extractFHEContext raises no error at all, tagging unrecognized
schemes as CKKS. -/
theorem C8_theorem (cc : CryptoContextInfo) :
    ((∃ e, HeraclesTracer.initializeContext { cc with isRNS := true } = Except.error e)
        ↔ cc.schemeId = SchemeId.invalid)
    ∧ HeraclesTracer.initializeContext { cc with isRNS := true, schemeId := SchemeId.bgvrns }
        = Except.ok { scheme := HeraclesScheme.bgv, hasCkksInfo := false, n := cc.ringDim,
                      keyRnsNum := cc.keyRnsNum, alpha := cc.numPerPartQ,
                      digitSize := cc.numPartQ, qSize := cc.qSize }
    ∧ HeraclesTracer.initializeContext { cc with isRNS := true, schemeId := SchemeId.bfvrns }
        = Except.ok { scheme := HeraclesScheme.bfv, hasCkksInfo := false, n := cc.ringDim,
                      keyRnsNum := cc.keyRnsNum, alpha := cc.numPerPartQ,
                      digitSize := cc.numPartQ, qSize := cc.qSize }
    ∧ HeraclesTracer.initializeContext { cc with isRNS := true, schemeId := SchemeId.invalid }
        = Except.error "Unsupported scheme for HERACLES tracing"
    ∧ (HeraclesTracer.extractFHEContext { cc with schemeId := SchemeId.invalid }).scheme
        = HeraclesScheme.ckks := by
  obtain ⟨sid, rns, rd, kr, np, nq, qs⟩ := cc
  refine ⟨?_, rfl, rfl, rfl, rfl⟩
  cases sid <;> simp [HeraclesTracer.initializeContext]

/-- C9: registering a raw pointer degrades per backend exactly as claimed:
the text backend appends one visibly marked placeholder entry (hex address
plus void* type marker) and leaves the registry and output list untouched,
continuing normally, while the protobuf backend raises its explicit
not-supported error at the call site and records nothing. -/
theorem C9_theorem (st : SimpleFTState) (hst : HeraclesFTState) (ptr : Nat)
    (name : String) :
    (SimpleFunctionTracer.registerInputVoidPtr st ptr name).inputs
        = st.inputs ++ [name ++ " 0x" ++ toHex ptr ++ " : void*"]
    ∧ (SimpleFunctionTracer.registerInputVoidPtr st ptr name).outputs = st.outputs
    ∧ (SimpleFunctionTracer.registerInputVoidPtr st ptr name).reg = st.reg
    ∧ HeraclesFunctionTracer.registerInputVoidPtr hst ptr name
        = Except.error "HERACLES tracing does not support registering non-typed inputs." :=
  ⟨rfl, rfl, rfl, rfl⟩

end OpenFHE
